import Mathlib

/-!
Shallow embedding of the transformer stock-prediction program in trader.py.

Modelling conventions:
* Tensors are nested lists of rationals: a `Vec` is one feature row, a `Mat`
  is one batch element (rows = timesteps, entries = features), a `Tensor`
  is a batch of matrices.
* IEEE floating point is modelled by exact rational arithmetic.  The three
  transcendental functions the source applies (tf exp inside softmax,
  sqrt inside LayerNormalization, tf sin inside Time2Vector) are passed as
  explicit function parameters `e`, `sq`, `sinQ`; theorems quantify over
  them, and concrete instantiations used in counterexamples agree with the
  real function at every point where the computation applies them.
* `np.sqrt d_k` for the model constant d_k = 256 is exactly 16, so the
  attention scaling divisor is the exact rational 16 in the assembled model.
* Dropout layers are modelled in inference mode (identity), matching the
  forward pass used for prediction.
* Keras Dense/Conv1D(kernel_size=1) layers are position-wise affine maps;
  the weight argument `w` holds one weight vector per output unit (the
  transposed kernel) and `b` the bias vector.  The output width is the
  `units` argument of the layer, exactly as Keras fixes it at build time.
-/

abbrev Vec : Type := List ℚ
abbrev Mat : Type := List Vec
abbrev Tensor : Type := List Mat

/-- Dot product of two rows (extra entries of the longer row are ignored,
which never happens for well-shaped data). -/
def dotL (a b : Vec) : ℚ := (List.zipWith (· * ·) a b).sum

/-- Column j of a matrix (missing entries read as 0). -/
def col (m : Mat) (j : ℕ) : Vec := m.map (fun r => r.getD j 0)

/-- Keras Dense layer with `d` units applied position-wise: for each row,
output unit j is the dot product with weight vector j plus bias j.
Mirrors `Dense(d)` in SingleAttention.build, MultiAttention.build and the
1x1 convolutions of TransformerEncoder.build. -/
def denseM (d : ℕ) (w : Mat) (b : Vec) (m : Mat) : Mat :=
  m.map (fun row => (List.range d).map (fun j => dotL row (w.getD j []) + b.getD j 0))

/-- Matrix product A ⬝ B where `d` is the width of B (the TF matmul of
attention weights with the projected values). -/
def mulMat (d : ℕ) (a b : Mat) : Mat :=
  a.map (fun r => (List.range d).map (fun j => dotL r (col b j)))

/-- Raw attention scores `tf.matmul(q, k, transpose_b=True)`:
entry (i, j) is the dot product of query row i with key row j. -/
def scores (q k : Mat) : Mat := q.map (fun qi => k.map (fun kj => dotL qi kj))

/-- Softmax over one row, with the exponential passed as parameter `e`
(the source applies `tf.nn.softmax` over the last axis). -/
def softmaxRow (e : ℚ → ℚ) (v : Vec) : Vec :=
  v.map (fun x => e x / (v.map e).sum)

/-- Learned parameters of one SingleAttention head: query/key/value Dense
projections (SingleAttention.build). -/
structure SAParams where
  wq : Mat
  bq : Vec
  wk : Mat
  bk : Vec
  wv : Mat
  bv : Vec

/-- The attention-weight matrix computed in SingleAttention.call:
scores q·kᵗ, scaled entrywise by 1/sdk (sdk = np.sqrt d_k), then softmax
over the last axis.  The scaling happens before the softmax, exactly as in
the source (lines 101-103 of trader.py). -/
def attnWeights (e : ℚ → ℚ) (sdk : ℚ) (dk : ℕ) (p : SAParams) (iq ik : Mat) : Mat :=
  (scores (denseM dk p.wq p.bq iq) (denseM dk p.wk p.bk ik)).map
    (fun r => softmaxRow e (r.map (fun x => x / sdk)))

/-- SingleAttention.call: project value source, multiply by the attention
weights.  `inputs` is the (query-source, key-source, value-source) triple. -/
def singleAttention (e : ℚ → ℚ) (sdk : ℚ) (dk dv : ℕ) (p : SAParams)
    (inputs : Mat × Mat × Mat) : Mat :=
  mulMat dv (attnWeights e sdk dk p inputs.1 inputs.2.1)
    (denseM dv p.wv p.bv inputs.2.2)

/-- Concatenation of two matrices along the feature axis. -/
def concatMat (a b : Mat) : Mat := List.zipWith (· ++ ·) a b

/-- `tf.concat` of a list of head outputs along the feature axis
(MultiAttention.call line 133). -/
def concatFeat : List Mat → Mat
  | [] => []
  | m :: ms => ms.foldl concatMat m

/-- Learned parameters of MultiAttention: the list of heads and the final
linear projection (a single Dense layer; the source re-creates it inside
the head loop, so only one instance remains). -/
structure MAParams where
  heads : List SAParams
  wo : Mat
  bo : Vec

/-- MultiAttention.call: run every head on the same input triple,
concatenate along the feature axis, project with the linear Dense layer of
width `fout` (the source sets fout = input_shape[0][-1], the incoming
feature width). -/
def multiAttention (e : ℚ → ℚ) (sdk : ℚ) (dk dv fout : ℕ) (p : MAParams)
    (inputs : Mat × Mat × Mat) : Mat :=
  denseM fout p.wo p.bo
    (concatFeat (p.heads.map (fun h => singleAttention e sdk dk dv h inputs)))

/-- Identity matrix of size n, used to instantiate the claim C8 scenario of
an identity output projection. -/
def unitVec (n j : ℕ) : Vec := (List.range n).map (fun i => if i = j then 1 else 0)

def idMat (n : ℕ) : Mat := (List.range n).map (fun i => unitVec n i)

/-- Elementwise ReLU (activation of the first feed-forward convolution). -/
def reluM (m : Mat) : Mat := m.map (fun r => r.map (fun x => max x 0))

/-- Elementwise sum of two matrices (the residual additions). -/
def addMat (a b : Mat) : Mat := List.zipWith (List.zipWith (· + ·)) a b

/-- Dropout at inference time is the identity map. -/
def dropoutInf (m : Mat) : Mat := m

/-- Keras LayerNormalization with epsilon 1e-6 on one row: normalize over
the feature axis with the learned scale g and shift b. `sq` stands for the
real square root. -/
def lnRow (sq : ℚ → ℚ) (g b : Vec) (row : Vec) : Vec :=
  let n : ℚ := row.length
  let mu := row.sum / n
  let sigma2 := (row.map (fun x => (x - mu) ^ 2)).sum / n
  let d := sq (sigma2 + 1 / 1000000)
  List.zipWith (fun gb x => gb.1 * ((x - mu) / d) + gb.2) (g.zip b) row

def layerNorm (sq : ℚ → ℚ) (g b : Vec) (m : Mat) : Mat := m.map (lnRow sq g b)

/-- Learned parameters of one TransformerEncoder block: multi-head
attention, two LayerNormalizations and the two 1x1 convolutions. -/
structure TEParams where
  attn : MAParams
  g1 : Vec
  b1 : Vec
  w1 : Mat
  c1 : Vec
  w2 : Mat
  c2 : Vec
  g2 : Vec
  b2 : Vec

/-- TransformerEncoder.call (trader.py lines 160-169): multi-head
attention, dropout, LayerNorm of inputs[0] + attention; then the two
position-wise convolutions (ffd units with ReLU, then fin units), dropout,
and a final LayerNorm of inputs[0] + feed-forward output.  Note that the
second residual adds inputs[0], the original block input. -/
def transformerEncoder (e sq : ℚ → ℚ) (sdk : ℚ) (dk dv ffd fin : ℕ)
    (p : TEParams) (inputs : Mat × Mat × Mat) : Mat :=
  let a := dropoutInf (multiAttention e sdk dk dv fin p.attn inputs)
  let r1 := layerNorm sq p.g1 p.b1 (addMat inputs.1 a)
  let f1 := reluM (denseM ffd p.w1 p.c1 r1)
  let f2 := dropoutInf (denseM fin p.w2 p.c2 f1)
  layerNorm sq p.g2 p.b2 (addMat inputs.1 f2)

/-- Modelled from the spec (claim C2): the encoder block as the claim
states it, with the second residual connection adding residual_1 (the
output of the first sublayer) instead of the original block input. -/
def encoderClaimC2 (e sq : ℚ → ℚ) (sdk : ℚ) (dk dv ffd fin : ℕ)
    (p : TEParams) (inputs : Mat × Mat × Mat) : Mat :=
  let a := dropoutInf (multiAttention e sdk dk dv fin p.attn inputs)
  let r1 := layerNorm sq p.g1 p.b1 (addMat inputs.1 a)
  let f1 := reluM (denseM ffd p.w1 p.c1 r1)
  let f2 := dropoutInf (denseM fin p.w2 p.c2 f1)
  layerNorm sq p.g2 p.b2 (addMat r1 f2)

/-- The amended encoder description: identical attention and feed-forward
sublayers, but the second residual adds the original block input, as the
source does on line 168. -/
def encoderAmendedC2 (e sq : ℚ → ℚ) (sdk : ℚ) (dk dv ffd fin : ℕ)
    (p : TEParams) (inputs : Mat × Mat × Mat) : Mat :=
  let a := multiAttention e sdk dk dv fin p.attn inputs
  let r1 := layerNorm sq p.g1 p.b1 (addMat inputs.1 a)
  let f := denseM fin p.w2 p.c2 (reluM (denseM ffd p.w1 p.c1 r1))
  layerNorm sq p.g2 p.b2 (addMat inputs.1 f)

/-- Learned parameters of Time2Vector: the four weight/bias vectors of
length seq_len built in Time2Vector.build. -/
structure T2VParams where
  wl : Vec
  bl : Vec
  wp : Vec
  bp : Vec

/-- Time2Vector.call (trader.py lines 52-60): per timestep, average the
first 3 feature channels (the slice x[:,:,:3] clamps, so fewer channels
are averaged as they are), then form the linear feature w*x + b and the
periodic feature sin(x*w + b); output rows are the (linear, periodic)
pairs.  `sinQ` stands for tf sin. -/
def time2vec (sinQ : ℚ → ℚ) (p : T2VParams) (m : Mat) : Mat :=
  let xbar := m.map (fun row => (row.take 3).sum / ((row.take 3).length : ℚ))
  let lin := List.zipWith (fun wb x => wb.1 * x + wb.2) (p.wl.zip p.bl) xbar
  let per := List.zipWith (fun wb x => sinQ (x * wb.1 + wb.2)) (p.wp.zip p.bp) xbar
  List.zipWith (fun a b => [a, b]) lin per

/-- Modelled from the spec (claim C9): the Time-Embedding layer as the
claim states it, failing (none) on inputs with fewer than 3 feature
channels and otherwise behaving like the layer. -/
def time2vecClaimC9 (sinQ : ℚ → ℚ) (p : T2VParams) (m : Mat) : Option Mat :=
  if m.all (fun r => 3 ≤ r.length) then some (time2vec sinQ p m) else none

/-- np.sqrt of the model constant d_k = 256, which is exactly 16. -/
def sqrtDk : ℚ := 16

/-- Parameters of the assembled model up to the pooling layer: the time
embedding and the three encoder blocks of create_model. -/
structure ModelParams where
  t2v : T2VParams
  enc1 : TEParams
  enc2 : TEParams
  enc3 : TEParams

/-- create_model line 195: concatenate the raw 4-feature input with the
2-feature time embedding along the feature axis. -/
def modelConcat (sinQ : ℚ → ℚ) (P : ModelParams) (m : Mat) : Mat :=
  concatMat m (time2vec sinQ P.t2v m)

/-- First encoder block of create_model, applied to the triple (x, x, x)
with d_k = d_v = ff_dim = 256 and incoming feature width 6. -/
def modelStage1 (e sq sinQ : ℚ → ℚ) (P : ModelParams) (m : Mat) : Mat :=
  let x := modelConcat sinQ P m
  transformerEncoder e sq sqrtDk 256 256 256 6 P.enc1 (x, x, x)

def modelStage2 (e sq sinQ : ℚ → ℚ) (P : ModelParams) (m : Mat) : Mat :=
  let x := modelStage1 e sq sinQ P m
  transformerEncoder e sq sqrtDk 256 256 256 6 P.enc2 (x, x, x)

/-- Output of the three stacked encoder blocks for one batch element. -/
def modelStage3 (e sq sinQ : ℚ → ℚ) (P : ModelParams) (m : Mat) : Mat :=
  let x := modelStage2 e sq sinQ P m
  transformerEncoder e sq sqrtDk 256 256 256 6 P.enc3 (x, x, x)

/-- GlobalAveragePooling1D with data_format given as channels_first
(create_model line 199): Keras then treats the LAST axis as the steps
axis, so for a (seq_len, features) batch element it averages each ROW,
producing one value per timestep. -/
def gapRow (m : Mat) : Vec := m.map (fun r => r.sum / (r.length : ℚ))

/-- Pooled model output for a batch: the pooling layer applied to the
encoder-stack output of every batch element. -/
def modelPooled (e sq sinQ : ℚ → ℚ) (P : ModelParams) (t : Tensor) : List Vec :=
  t.map (fun m => gapRow (modelStage3 e sq sinQ P m))

/-- Modelled from the spec (claim C1): pooling as the claim states it,
averaging the encoder output over its timesteps, giving a 6-wide vector
per batch element. -/
def gapTimeAxisClaim (m : Mat) : Vec :=
  (List.range 6).map (fun j => (m.map (fun r => r.getD j 0)).sum / (m.length : ℚ))

def modelPooledClaimC1 (e sq sinQ : ℚ → ℚ) (P : ModelParams) (t : Tensor) : List Vec :=
  t.map (fun m => gapTimeAxisClaim (modelStage3 e sq sinQ P m))

/-- Shape predicate: m is an (l, f) matrix. -/
def isMat (l f : ℕ) (m : Mat) : Prop :=
  m.length = l ∧ ∀ r ∈ m, r.length = f

instance (l f : ℕ) (m : Mat) : Decidable (isMat l f m) := by
  unfold isMat; infer_instance

/-- Shape predicate: t is a (b, l, f) tensor. -/
def isTensor (b l f : ℕ) (t : Tensor) : Prop :=
  t.length = b ∧ ∀ m ∈ t, isMat l f m

instance (b l f : ℕ) (t : Tensor) : Decidable (isTensor b l f t) := by
  unfold isTensor; infer_instance

/-- Well-shaped parameters of one encoder block built for feature width f:
at least one attention head and LayerNormalization scale/shift vectors of
length f. -/
def encWF (f : ℕ) (p : TEParams) : Prop :=
  0 < p.attn.heads.length ∧ p.g1.length = f ∧ p.b1.length = f ∧
    p.g2.length = f ∧ p.b2.length = f

instance (f : ℕ) (p : TEParams) : Decidable (encWF f p) := by
  unfold encWF; infer_instance

/-- Well-shaped Time2Vector parameters for seq_len l. -/
def t2vWF (l : ℕ) (p : T2VParams) : Prop :=
  p.wl.length = l ∧ p.bl.length = l ∧ p.wp.length = l ∧ p.bp.length = l

instance (l : ℕ) (p : T2VParams) : Decidable (t2vWF l p) := by
  unfold t2vWF; infer_instance

/-- Well-shaped assembled-model parameters: Time2Vector built for
seq_len = 128, each encoder block built for feature width 6 with the 12
heads create_model configures. -/
def modelWF (P : ModelParams) : Prop :=
  t2vWF 128 P.t2v ∧
    (encWF 6 P.enc1 ∧ P.enc1.attn.heads.length = 12) ∧
    (encWF 6 P.enc2 ∧ P.enc2.attn.heads.length = 12) ∧
    (encWF 6 P.enc3 ∧ P.enc3.attn.heads.length = 12)

instance (P : ModelParams) : Decidable (modelWF P) := by
  unfold modelWF; infer_instance

/-- The encoder block applied batchwise to the triple (x, x, x), as the
assembled model applies it. -/
def encoderBlockB (e sq : ℚ → ℚ) (sdk : ℚ) (dk dv ffd fin : ℕ)
    (p : TEParams) (t : Tensor) : Tensor :=
  t.map (fun m => transformerEncoder e sq sdk dk dv ffd fin p (m, m, m))

def modelConcatB (sinQ : ℚ → ℚ) (P : ModelParams) (t : Tensor) : Tensor :=
  t.map (modelConcat sinQ P)

def modelStage1B (e sq sinQ : ℚ → ℚ) (P : ModelParams) (t : Tensor) : Tensor :=
  t.map (modelStage1 e sq sinQ P)

def modelStage2B (e sq sinQ : ℚ → ℚ) (P : ModelParams) (t : Tensor) : Tensor :=
  t.map (modelStage2 e sq sinQ P)

def modelStage3B (e sq sinQ : ℚ → ℚ) (P : ModelParams) (t : Tensor) : Tensor :=
  t.map (modelStage3 e sq sinQ P)

/-! Data pipeline of training() and testing(): rolling mean of window 10,
percentage change, dropping of NaN rows (the rows the rolling window and
the first pct_change leave undefined), then min-max statistics. -/

/-- pandas rolling(w).mean() followed by dropping the NaN rows: the mean
of every full window of w consecutive values. -/
def rollMean (w : ℕ) (xs : List ℚ) : List ℚ :=
  (List.range (xs.length + 1 - w)).map (fun i => ((xs.drop i).take w).sum / (w : ℚ))

/-- pandas pct_change() followed by dropping the first (NaN) row:
successive ratios minus one. -/
def pctChange (ys : List ℚ) : List ℚ :=
  List.zipWith (fun prev cur => cur / prev - 1) ys ys.tail

/-- One price column pushed through the shared preprocessing of training()
and testing(): moving average, then arithmetic returns. -/
def procCol (xs : List ℚ) : List ℚ := pctChange (rollMean 10 xs)

/-- Minimum of a nonempty list of rationals (python min over series
values; the source only applies it to nonempty data). -/
def qmin : List ℚ → ℚ
  | [] => 0
  | x :: xs => xs.foldl min x

def qmax : List ℚ → ℚ
  | [] => 0
  | x :: xs => xs.foldl max x

/-- min_return computed in testing() (trader.py line 371): the minimum
over all four processed return columns of the dataframe handed to the
current inference call. -/
def testingMinReturn (o h l c : List ℚ) : ℚ :=
  qmin (procCol o ++ procCol h ++ procCol l ++ procCol c)

def testingMaxReturn (o h l c : List ℚ) : ℚ :=
  qmax (procCol o ++ procCol h ++ procCol l ++ procCol c)

/-- min_return computed in training() (trader.py line 239): the minimum
over the four return columns restricted to the rows before last_20pct,
the first len - int(0.2 * len) processed rows.  int(0.2 * len) agrees
with len / 5 (floored) for the data sizes involved. -/
def trainingMinReturn (o h l c : List ℚ) : ℚ :=
  let len := (procCol c).length
  let k := len - len / 5
  qmin ((procCol o).take k ++ (procCol h).take k ++
    (procCol l).take k ++ (procCol c).take k)

/-- Min-max normalization of one column as both training() and testing()
apply it: (x - min) / (max - min).  The entries are Option-valued: none
models the non-finite float (NaN or infinity) that the IEEE division by
zero produces when max = min; the source performs the division
unconditionally, so no error is ever raised. -/
def normCol (mn mx : ℚ) (xs : List ℚ) : List (Option ℚ) :=
  xs.map (fun x => if mx = mn then none else some ((x - mn) / (mx - mn)))

/-- The normalized Close column produced by testing() for the dataframe
it is given: statistics taken from that same dataframe. -/
def testingNormClose (o h l c : List ℚ) : List (Option ℚ) :=
  normCol (testingMinReturn o h l c) (testingMaxReturn o h l c) (procCol c)

/-! The main-block trading loop (trader.py lines 424-446). -/

/-- One iteration of the signal logic: buy 1 when the prediction rose and
no unit is held, sell -1 when it did not rise and a unit is held,
otherwise 0. -/
def tradeStep (unit : ℤ) (prev pred : ℚ) : ℤ :=
  if prev < pred then (if unit = 0 then 1 else 0)
  else (if unit = 1 then -1 else 0)

/-- The sequence of emitted signals given the successive predictions,
threading prev_pred and unit exactly as the loop body does. -/
def driverSignals : ℚ → ℤ → List ℚ → List ℤ
  | _, _, [] => []
  | prev, unit, p :: ps =>
    tradeStep unit prev p :: driverSignals p (unit + tradeStep unit prev p) ps

/-- The prev_pred value in force at iteration i when the run started from
prev0: prev0 at the first iteration, afterwards the previous prediction. -/
def prevAt (preds : List ℚ) (prev0 : ℚ) (i : ℕ) : ℚ :=
  if i = 0 then prev0 else preds.getD (i - 1) 0

/-- The main loop over the enumerated testing rows: it stops (break)
before writing anything at the row whose index is R - 1, and otherwise
emits one signal per row, where predAt i is the prediction testing()
returns at iteration i. -/
def loopIter : List ℕ → ℚ → ℤ → (ℕ → ℚ) → ℕ → List ℤ
  | [], _, _, _, _ => []
  | i :: rest, prev, unit, predAt, stop =>
    if i = stop - 1 then []
    else
      tradeStep unit prev (predAt i) ::
        loopIter rest (predAt i) (unit + tradeStep unit prev (predAt i)) predAt stop

/-- All signal lines the main block writes for a testing csv with r data
rows: the loop ranges over the row indices 0, ..., r-1 with initial
prev_pred = 0 and unit = 0 and breaks at index r - 1. -/
def mainSignals (r : ℕ) (predAt : ℕ → ℚ) : List ℤ :=
  loopIter (List.range r) 0 0 predAt r

/-- Prefix of an index list up to (excluding) the first occurrence of k,
used to describe which rows the loop processes before the break. -/
def takeUntil (k : ℕ) : List ℕ → List ℕ
  | [] => []
  | a :: rest => if a = k then [] else a :: takeUntil k rest

/-! Concrete instances used by counterexamples and witnesses.  The
function stand-ins agree with the real transcendental functions at every
argument the corresponding computation applies them to. -/

/-- Stands for exp in counterexamples whose attention scores are all 0:
constant 1, which is exp 0. -/
def expAtZero : ℚ → ℚ := fun _ => 1

/-- Stands for sin in counterexamples whose periodic arguments are all 0:
constant 0, which is sin 0. -/
def sinAtZero : ℚ → ℚ := fun _ => 0

/-- Stands for the square root in the C2 counterexample: every
LayerNormalization there is applied to a two-entry row whose variance
plus epsilon is 25/16000000, whose real square root is exactly 5/4000. -/
def sqrtC2 : ℚ → ℚ := fun x => if x = 25 / 16000000 then 5 / 4000 else 0

/-- Single-head parameters with all weights zero. -/
def zeroSA : SAParams := ⟨[], [], [], [], [], []⟩

/-- Encoder-block parameters (feature width 2, one head) for the C2
counterexample: zero attention and feed-forward weights, first LayerNorm
with scale 0 and shift (0, 3/2000), second LayerNorm with scale 1 and
shift 0. -/
def teC2 : TEParams :=
  ⟨⟨[zeroSA], [], []⟩, [0, 0], [0, 3 / 2000], [], [], [], [], [1, 1], [0, 0]⟩

/-- The C2 counterexample block input: one timestep, two features. -/
def matC2 : Mat := [[3 / 2000, 0]]

/-- All-zero model parameters with the built shapes of create_model:
12 heads per block, length-128 Time2Vector vectors, length-6
LayerNormalization vectors. -/
def zeroTE : TEParams :=
  ⟨⟨List.replicate 12 zeroSA, [], []⟩, List.replicate 6 0, List.replicate 6 0,
    [], [], [], [], List.replicate 6 0, List.replicate 6 0⟩

def zeroModelParams : ModelParams :=
  ⟨⟨List.replicate 128 0, List.replicate 128 0, List.replicate 128 0,
      List.replicate 128 0⟩, zeroTE, zeroTE, zeroTE⟩

/-- A zero one-window input batch of shape (1, 128, 4). -/
def zeroInput : Tensor := [List.replicate 128 (List.replicate 4 0)]

/-- Stands for the square root in the C1 counterexample: the all-zero
input and parameters make every LayerNormalization row constant, so the
square root is only applied to 0 + epsilon = 1/1000000, whose real square
root is exactly 1/1000. -/
def sqrtC1 : ℚ → ℚ := fun x => if x = 1 / 1000000 then 1 / 1000 else 0

/-- Concrete raw price column for the C3 theorem: 15 rows. -/
def colC3 : List ℚ :=
  [10, 10, 10, 10, 10, 10, 10, 10, 10, 10, 20, 10, 10, 10, 0]

/-- The same column with one more appended row, as the driver appends one
testing row to df_train before the next inference call. -/
def colC3x : List ℚ := colC3 ++ [0]

/-- Constant raw price column (20 identical rows) for the C4 theorem:
every return is 0, so max_return = min_return. -/
def colC4 : List ℚ := List.replicate 20 7

/-- Time2Vector parameters for the C9 counterexample: one timestep,
linear weight 2 and bias 5, periodic weight and bias 0 (so sin is only
applied at 0, where sinAtZero agrees with it). -/
def t2vC9 : T2VParams := ⟨[2], [5], [0], [0]⟩

/-- The C9 counterexample input: one timestep with only 2 feature
channels. -/
def matC9 : Mat := [[1, 3]]

/-- Tiny well-shaped encoder-block parameters (feature width 1, one head)
used by the shape witness. -/
def teTiny : TEParams := ⟨⟨[zeroSA], [], []⟩, [0], [0], [], [], [], [], [0], [0]⟩

/-! ## Theorems -/

/-! Generic list helpers. -/

theorem mem_zipWith_decomp {α β γ : Type} {f : α → β → γ} :
    ∀ {as : List α} {bs : List β} {c : γ}, c ∈ List.zipWith f as bs →
      ∃ a ∈ as, ∃ b ∈ bs, c = f a b := by
  intro as
  induction as with
  | nil => intro bs c h; simp at h
  | cons a as ih =>
    intro bs c h
    cases bs with
    | nil => simp at h
    | cons b bs =>
      rw [List.zipWith_cons_cons, List.mem_cons] at h
      rcases h with rfl | h
      · exact ⟨a, by simp, b, by simp, rfl⟩
      · obtain ⟨a1, ha, b1, hb, rfl⟩ := ih h
        exact ⟨a1, by simp [ha], b1, by simp [hb], rfl⟩

theorem sum_map_div (l : List ℚ) (f : ℚ → ℚ) (c : ℚ) :
    (l.map (fun x => f x / c)).sum = (l.map f).sum / c := by
  induction l with
  | nil => simp
  | cons a as ih => simp [ih, add_div]

theorem getD_replicate_zero (n j : ℕ) : (List.replicate n (0 : ℚ)).getD j 0 = 0 := by
  induction n generalizing j with
  | zero => simp
  | succ m ih =>
    cases j with
    | zero => simp [List.replicate_succ]
    | succ k => simp [List.replicate_succ, List.getD_cons_succ, ih]

theorem map_range_getD (r : Vec) :
    (List.range r.length).map (fun j => r.getD j 0) = r := by
  induction r with
  | nil => simp
  | cons x xs ih =>
    rw [List.length_cons, List.range_succ_eq_map, List.map_cons, List.map_map]
    have h2 : List.map ((fun j => (x :: xs).getD j 0) ∘ Nat.succ) (List.range xs.length)
        = List.map (fun j => xs.getD j 0) (List.range xs.length) :=
      List.map_congr_left (fun a _ => by simp [Function.comp])
    simp only [List.getD_cons_zero, h2, ih]

theorem range_one : List.range 1 = [0] := by decide

theorem range_two : List.range 2 = [0, 1] := by decide

theorem range_six : List.range 6 = [0, 1, 2, 3, 4, 5] := by decide

theorem range_seven : List.range 7 = [0, 1, 2, 3, 4, 5, 6] := by decide

theorem range_eleven : List.range 11 = [0, 1, 2, 3, 4, 5, 6, 7, 8, 9, 10] := by decide

/-! Softmax row sums (claim C5). -/

theorem softmaxRow_sum (e : ℚ → ℚ) (he : ∀ x, 0 < e x) (v : Vec) (hv : v ≠ []) :
    (softmaxRow e v).sum = 1 := by
  have hpos : 0 < (v.map e).sum := by
    refine List.sum_pos _ ?_ ?_
    · intro x hx
      obtain ⟨y, _, rfl⟩ := List.mem_map.mp hx
      exact he y
    · intro h
      exact hv (List.map_eq_nil_iff.mp h)
  unfold softmaxRow
  rw [sum_map_div]
  exact div_self (ne_of_gt hpos)

/-- Claim C5: in SingleAttention.call the raw query-key scores are scaled
by 1/sqrt(d_k) before the softmax is applied, and every row of the
resulting attention-weight matrix sums to 1, in particular to within the
1e-5 tolerance.  The exponential `e` of the softmax is abstract, assumed
positive everywhere as the real exponential is, and the key source must
be nonempty (in the model it has 128 rows). -/
theorem attention_scaled_softmax_rows_sum_one (e : ℚ → ℚ) (he : ∀ x, 0 < e x)
    (sdk : ℚ) (dk : ℕ) (p : SAParams) (iq ik : Mat) (hk : ik ≠ []) :
    (∀ row ∈ attnWeights e sdk dk p iq ik, |row.sum - 1| ≤ 1 / 100000) ∧
      attnWeights e sdk dk p iq ik =
        (scores (denseM dk p.wq p.bq iq) (denseM dk p.wk p.bk ik)).map
          (fun r => softmaxRow e (r.map (fun x => x / sdk))) := by
  refine ⟨?_, rfl⟩
  intro row hrow
  simp only [attnWeights, List.mem_map] at hrow
  obtain ⟨r, hr, rfl⟩ := hrow
  have hrne : r.map (fun x => x / sdk) ≠ [] := by
    simp only [scores, List.mem_map] at hr
    obtain ⟨qi, _, rfl⟩ := hr
    intro hcon
    rw [List.map_eq_nil_iff, List.map_eq_nil_iff] at hcon
    have : denseM dk p.wk p.bk ik = ik.map
        (fun row => (List.range dk).map (fun j => dotL row (p.wk.getD j []) + p.bk.getD j 0)) := rfl
    rw [this] at hcon
    exact hk (List.map_eq_nil_iff.mp hcon)
  rw [softmaxRow_sum e he _ hrne]
  norm_num

/-- Witness for claim C5 at a concrete one-timestep input. -/
theorem attention_rows_sum_witness :
    |((attnWeights expAtZero 16 1 zeroSA [[0]] [[0]]).getD 0 []).sum - 1| ≤ 1 / 100000 := by
  have hmem : (attnWeights expAtZero 16 1 zeroSA [[0]] [[0]]).getD 0 [] ∈
      attnWeights expAtZero 16 1 zeroSA [[0]] [[0]] := by
    have h : attnWeights expAtZero 16 1 zeroSA [[0]] [[0]] = [[1]] := by
      norm_num [attnWeights, scores, denseM, softmaxRow, dotL, expAtZero, zeroSA, range_one]
    rw [h]
    simp
  exact (attention_scaled_softmax_rows_sum_one expAtZero (fun _ => one_pos) 16 1 zeroSA
    [[0]] [[0]] (List.cons_ne_nil _ _)).1 _ hmem

/-! Claim C2: the second residual connection. -/

/-- Claim C2 (amended): the encoder block output equals
LayerNorm(inputs[0] + ff_out) where ff_out is the feed-forward sublayer
applied to residual_1 = LayerNorm(inputs[0] + attn_out): the second
residual connection adds the ORIGINAL block input, not the first
sublayer output (trader.py line 168). -/
theorem encoder_second_residual_adds_block_input (e sq : ℚ → ℚ) (sdk : ℚ)
    (dk dv ffd fin : ℕ) (p : TEParams) (inputs : Mat × Mat × Mat) :
    transformerEncoder e sq sdk dk dv ffd fin p inputs =
      encoderAmendedC2 e sq sdk dk dv ffd fin p inputs := rfl

/-- Counterexample to claim C2 as stated: a one-timestep, two-feature
block input on which the code output differs from
LayerNorm(residual_1 + ff_out).  All attention and feed-forward weights
are zero, so the abstract exponential is only applied at 0 and the
abstract square root only at 25/16000000; expAtZero and sqrtC2 agree
with the real functions there. -/
theorem encoder_second_residual_counterexample :
    transformerEncoder expAtZero sqrtC2 1 1 1 1 2 teC2 (matC2, matC2, matC2) ≠
      encoderClaimC2 expAtZero sqrtC2 1 1 1 1 2 teC2 (matC2, matC2, matC2) := by
  have h1 : transformerEncoder expAtZero sqrtC2 1 1 1 1 2 teC2 (matC2, matC2, matC2)
      = [[3 / 5, -3 / 5]] := by
    norm_num [transformerEncoder, multiAttention, concatFeat, singleAttention, attnWeights,
      scores, softmaxRow, denseM, dotL, mulMat, col, layerNorm, lnRow, addMat, reluM,
      dropoutInf, expAtZero, sqrtC2, teC2, zeroSA, matC2, range_one, range_two]
  have h2 : encoderClaimC2 expAtZero sqrtC2 1 1 1 1 2 teC2 (matC2, matC2, matC2)
      = [[-3 / 5, 3 / 5]] := by
    norm_num [encoderClaimC2, multiAttention, concatFeat, singleAttention, attnWeights,
      scores, softmaxRow, denseM, dotL, mulMat, col, layerNorm, lnRow, addMat, reluM,
      dropoutInf, expAtZero, sqrtC2, teC2, zeroSA, matC2, range_one, range_two]
  rw [h1, h2]
  norm_num

/-! Claim C3: normalization statistics are re-derived at inference. -/

/-- Evidence for claim C3 being violated by the code (the spec itself
flags this as a data-leakage bug): on the concrete 15-row dataset colC3,
the min_return testing() uses differs from the min_return training()
derives from the first 80% of the data, and appending one row (as the
driver does between inference calls) changes the statistics again. -/
theorem testing_rederives_normalization_stats :
    testingMinReturn colC3 colC3 colC3 colC3 ≠ trainingMinReturn colC3 colC3 colC3 colC3 ∧
      testingMinReturn colC3x colC3x colC3x colC3x ≠ testingMinReturn colC3 colC3 colC3 colC3 := by
  have ht : testingMinReturn colC3 colC3 colC3 colC3 = -1 / 11 := by
    norm_num [testingMinReturn, procCol, rollMean, pctChange, qmin, colC3, range_six]
  have htr : trainingMinReturn colC3 colC3 colC3 colC3 = 0 := by
    norm_num [trainingMinReturn, procCol, rollMean, pctChange, qmin, colC3, range_six]
  have htx : testingMinReturn colC3x colC3x colC3x colC3x = -1 / 10 := by
    norm_num [testingMinReturn, procCol, rollMean, pctChange, qmin, colC3x, colC3, range_seven]
  rw [ht, htr, htx]
  norm_num

/-! Claim C4: degenerate normalization silently produces NaN. -/

/-- Evidence for claim C4 being violated by the code: on a constant
20-row dataset every return is 0, so max_return = min_return, and the
normalization step of testing() returns normally with every normalized
Close entry a non-finite float (modelled as none) instead of failing
with a detectable error. -/
theorem degenerate_normalization_silent_nan :
    testingMinReturn colC4 colC4 colC4 colC4 = testingMaxReturn colC4 colC4 colC4 colC4 ∧
      testingNormClose colC4 colC4 colC4 colC4 = List.replicate 10 none := by
  have hcol : procCol colC4 = List.replicate 10 0 := by
    norm_num [procCol, rollMean, pctChange, colC4, range_eleven, List.replicate]
  have hmn : testingMinReturn colC4 colC4 colC4 colC4 = 0 := by
    norm_num [testingMinReturn, hcol, qmin, List.replicate]
  have hmx : testingMaxReturn colC4 colC4 colC4 colC4 = 0 := by
    norm_num [testingMaxReturn, hcol, qmax, List.replicate]
  refine ⟨by rw [hmn, hmx], ?_⟩
  rw [testingNormClose, hmn, hmx, hcol]
  norm_num [normCol, List.replicate]

/-! Claim C9: Time2Vector on narrow inputs. -/

/-- Claim C9 (amended): the Time-Embedding layer consults only the first
3 feature columns —  its output is unchanged when every row is truncated
to its first 3 entries — and an input with fewer than 3 channels is not
rejected: the slice x[:,:,:3] simply keeps the channels that exist. -/
theorem time2vec_consults_first_three (sinQ : ℚ → ℚ) (p : T2VParams) (m : Mat) :
    time2vec sinQ p m = time2vec sinQ p (m.map (fun r => r.take 3)) := by
  simp only [time2vec, List.map_map]
  have hx : ((fun row => (List.take 3 row).sum / ((List.take 3 row).length : ℚ)) ∘
        fun r => List.take 3 r)
      = (fun row => (List.take 3 row).sum / ((List.take 3 row).length : ℚ)) := by
    funext a
    simp [Function.comp, List.take_take]
  rw [hx]

/-! Claim C8: one head plus identity projection. -/

theorem dotL_all_zero : ∀ (xs zs : Vec), (∀ z ∈ zs, z = 0) → dotL xs zs = 0 := by
  intro xs
  induction xs with
  | nil => intro zs _; simp [dotL]
  | cons x xs ih =>
    intro zs hz
    cases zs with
    | nil => simp [dotL]
    | cons z zs =>
      have hz0 : z = 0 := hz z (by simp)
      have hrest : dotL xs zs = 0 := ih zs (fun w hw => hz w (by simp [hw]))
      simp only [dotL, List.zipWith_cons_cons, List.sum_cons] at *
      rw [hz0, hrest, mul_zero, add_zero]

theorem dotL_unitVec : ∀ (r : Vec) (j : ℕ), j < r.length →
    dotL r (unitVec r.length j) = r.getD j 0 := by
  intro r
  induction r with
  | nil => intro j hj; simp at hj
  | cons x xs ih =>
    intro j hj
    have hexp : unitVec (x :: xs).length j =
        (if (0 : ℕ) = j then (1 : ℚ) else 0) ::
          (List.range xs.length).map (fun i => if i + 1 = j then (1 : ℚ) else 0) := by
      simp only [unitVec, List.length_cons, List.range_succ_eq_map, List.map_cons,
        List.map_map]
      rfl
    rw [hexp]
    cases j with
    | zero =>
      have hz : dotL xs ((List.range xs.length).map
          (fun i => if i + 1 = 0 then (1 : ℚ) else 0)) = 0 := by
        apply dotL_all_zero
        intro z hz
        obtain ⟨i, _, rfl⟩ := List.mem_map.mp hz
        simp
      simp only [dotL, List.zipWith_cons_cons, List.sum_cons, List.getD_cons_zero] at hz ⊢
      rw [hz]
      simp
    | succ k =>
      have hk : k < xs.length := by
        simpa using hj
      have hmap : (List.range xs.length).map (fun i => if i + 1 = k + 1 then (1 : ℚ) else 0)
          = (List.range xs.length).map (fun i => if i = k then (1 : ℚ) else 0) := by
        apply List.map_congr_left
        intro a _
        simp
      rw [hmap]
      have hih := ih k hk
      rw [show unitVec xs.length k
          = (List.range xs.length).map (fun i => if i = k then (1 : ℚ) else 0) from rfl] at hih
      simp only [dotL, List.zipWith_cons_cons, List.sum_cons, List.getD_cons_succ] at hih ⊢
      simp [hih]

theorem idMat_getD (n j : ℕ) (hj : j < n) : (idMat n).getD j [] = unitVec n j := by
  rw [idMat, List.getD_eq_getElem?_getD, List.getElem?_map, List.getElem?_range hj]
  rfl

theorem denseM_id (n : ℕ) (m : Mat) (hm : ∀ r ∈ m, r.length = n) :
    denseM n (idMat n) (List.replicate n 0) m = m := by
  unfold denseM
  conv_rhs => rw [← List.map_id m]
  apply List.map_congr_left
  intro r hr
  have hlen : r.length = n := hm r hr
  have hrow : ∀ j ∈ List.range n,
      dotL r ((idMat n).getD j []) + (List.replicate n (0 : ℚ)).getD j 0 = r.getD j 0 := by
    intro j hjmem
    have hj : j < n := List.mem_range.mp hjmem
    rw [idMat_getD n j hj, getD_replicate_zero, add_zero, ← hlen]
    exact dotL_unitVec r j (hlen ▸ hj)
  rw [List.map_congr_left hrow]
  rw [show List.range n = List.range r.length from by rw [hlen]]
  exact map_range_getD r

theorem mulMat_width (d : ℕ) (a b : Mat) : ∀ r ∈ mulMat d a b, r.length = d := by
  intro r hr
  obtain ⟨row, _, rfl⟩ := List.mem_map.mp hr
  simp

theorem singleAttention_width (e : ℚ → ℚ) (sdk : ℚ) (dk dv : ℕ) (p : SAParams)
    (inputs : Mat × Mat × Mat) :
    ∀ r ∈ singleAttention e sdk dk dv p inputs, r.length = dv :=
  mulMat_width dv _ _

/-- Claim C8: MultiAttention configured with a single head and with its
final output projection fixed to the identity map (identity weight
matrix, zero bias, output width d_v) produces exactly the output of the
contained SingleAttention instance with the same head parameters, on
every input triple. -/
theorem multi_head_identity_projection (e : ℚ → ℚ) (sdk : ℚ) (dk dv : ℕ)
    (h : SAParams) (inputs : Mat × Mat × Mat) :
    multiAttention e sdk dk dv dv ⟨[h], idMat dv, List.replicate dv 0⟩ inputs =
      singleAttention e sdk dk dv h inputs := by
  show denseM dv (idMat dv) (List.replicate dv 0)
      (concatFeat ([h].map (fun hh => singleAttention e sdk dk dv hh inputs)))
    = singleAttention e sdk dk dv h inputs
  rw [show ([h].map (fun hh => singleAttention e sdk dk dv hh inputs))
      = [singleAttention e sdk dk dv h inputs] from rfl]
  rw [show concatFeat [singleAttention e sdk dk dv h inputs]
      = singleAttention e sdk dk dv h inputs from rfl]
  exact denseM_id dv _ (singleAttention_width e sdk dk dv h inputs)

/-- Counterexample to claim C9 as stated: on a 2-channel input the layer
does not fail at build/load time; it returns a defined output (averaging
the two available channels), while the claim mandates an error (none). -/
theorem time2vec_no_failure_counterexample :
    time2vecClaimC9 sinAtZero t2vC9 matC9 = none ∧
      time2vec sinAtZero t2vC9 matC9 = [[9, 0]] := by
  constructor
  · rw [time2vecClaimC9]
    norm_num [matC9]
  · norm_num [time2vec, sinAtZero, t2vC9, matC9]

/-! Claim C7: the trading-signal invariants of the main loop. -/

theorem tradeStep_cases (unit : ℤ) (prev p : ℚ) (hu : unit = 0 ∨ unit = 1) :
    unit + tradeStep unit prev p = 0 ∨ unit + tradeStep unit prev p = 1 := by
  rcases hu with rfl | rfl <;> by_cases hp : prev < p <;> simp [tradeStep, hp]

theorem driverSignals_length : ∀ (preds : List ℚ) (prev : ℚ) (unit : ℤ),
    (driverSignals prev unit preds).length = preds.length := by
  intro preds
  induction preds with
  | nil => intro prev unit; rfl
  | cons p ps ih => intro prev unit; simp [driverSignals, ih]

theorem prevAt_cons (p : ℚ) (ps : List ℚ) (prev : ℚ) (j : ℕ) :
    prevAt (p :: ps) prev (j + 1) = prevAt ps p j := by
  cases j with
  | zero => simp [prevAt]
  | succ k => simp [prevAt]

theorem driver_invariant : ∀ (preds : List ℚ) (prev : ℚ) (unit : ℤ),
    (unit = 0 ∨ unit = 1) → ∀ i, i < preds.length →
    ((driverSignals prev unit preds).getD i 0 = 1 ∨
      (driverSignals prev unit preds).getD i 0 = -1 ∨
      (driverSignals prev unit preds).getD i 0 = 0) ∧
    ((driverSignals prev unit preds).getD i 0 = 1 ↔
      prevAt preds prev i < preds.getD i 0 ∧
        unit + ((driverSignals prev unit preds).take i).sum = 0) ∧
    ((driverSignals prev unit preds).getD i 0 = -1 ↔
      preds.getD i 0 ≤ prevAt preds prev i ∧
        unit + ((driverSignals prev unit preds).take i).sum = 1) ∧
    (unit + ((driverSignals prev unit preds).take (i + 1)).sum = 0 ∨
      unit + ((driverSignals prev unit preds).take (i + 1)).sum = 1) := by
  intro preds
  induction preds with
  | nil =>
    intro prev unit _ i hi
    simp at hi
  | cons p ps ih =>
    intro prev unit hu i hi
    cases i with
    | zero =>
      have hstep := tradeStep_cases unit prev p hu
      constructor
      · simp only [driverSignals, List.getD_cons_zero]
        rcases hu with rfl | rfl <;> by_cases hp : prev < p <;> simp [tradeStep, hp]
      refine ⟨?_, ?_, ?_⟩
      · simp only [driverSignals, List.getD_cons_zero, List.take_zero, List.sum_nil,
          add_zero, prevAt, if_pos rfl]
        rcases hu with rfl | rfl <;> by_cases hp : prev < p <;> simp [tradeStep, hp]
      · simp only [driverSignals, List.getD_cons_zero, List.take_zero, List.sum_nil,
          add_zero, prevAt, if_pos rfl]
        rcases hu with rfl | rfl <;> by_cases hp : prev < p
        · simp [tradeStep, hp]
        · simp [tradeStep, hp]
        · simp [tradeStep, hp, not_le.mpr hp]
        · simp [tradeStep, hp, not_lt.mp hp]
      · simp only [driverSignals, List.take_succ_cons, List.take_zero, List.sum_cons,
          List.sum_nil, add_zero]
        exact hstep
    | succ j =>
      have hj : j < ps.length := by simpa using hi
      have hstep := tradeStep_cases unit prev p hu
      have hrec := ih p (unit + tradeStep unit prev p) hstep j hj
      simp only [driverSignals, List.getD_cons_succ, List.take_succ_cons, List.sum_cons,
        prevAt_cons, ← add_assoc] at hrec ⊢
      exact hrec

/-- Claim C7: starting from prev_pred = 0 and unit = 0, every emitted
signal is 1, -1 or 0; a signal is 1 exactly when the prediction exceeds
the previous one and the running position (the sum of the signals so
far) is 0; it is -1 exactly when the prediction does not exceed the
previous one and the running position is 1; and after every emitted
signal the running position is 0 or 1. -/
theorem driver_signal_invariants (preds : List ℚ) (i : ℕ) (hi : i < preds.length) :
    ((driverSignals 0 0 preds).getD i 0 = 1 ∨ (driverSignals 0 0 preds).getD i 0 = -1 ∨
      (driverSignals 0 0 preds).getD i 0 = 0) ∧
    ((driverSignals 0 0 preds).getD i 0 = 1 ↔
      prevAt preds 0 i < preds.getD i 0 ∧ ((driverSignals 0 0 preds).take i).sum = 0) ∧
    ((driverSignals 0 0 preds).getD i 0 = -1 ↔
      preds.getD i 0 ≤ prevAt preds 0 i ∧ ((driverSignals 0 0 preds).take i).sum = 1) ∧
    (((driverSignals 0 0 preds).take (i + 1)).sum = 0 ∨
      ((driverSignals 0 0 preds).take (i + 1)).sum = 1) := by
  have h := driver_invariant preds 0 0 (Or.inl rfl) i hi
  simpa using h

/-- Witness for claim C7 on the concrete prediction sequence 1, 2, 1 at
its second signal. -/
theorem driver_signal_invariants_witness :
    ((driverSignals 0 0 [1, 2, 1]).getD 1 0 = 1 ∨ (driverSignals 0 0 [1, 2, 1]).getD 1 0 = -1 ∨
      (driverSignals 0 0 [1, 2, 1]).getD 1 0 = 0) ∧
    ((driverSignals 0 0 [1, 2, 1]).getD 1 0 = 1 ↔
      prevAt [1, 2, 1] 0 1 < ([1, 2, 1] : List ℚ).getD 1 0 ∧
        ((driverSignals 0 0 [1, 2, 1]).take 1).sum = 0) ∧
    ((driverSignals 0 0 [1, 2, 1]).getD 1 0 = -1 ↔
      ([1, 2, 1] : List ℚ).getD 1 0 ≤ prevAt [1, 2, 1] 0 1 ∧
        ((driverSignals 0 0 [1, 2, 1]).take 1).sum = 1) ∧
    (((driverSignals 0 0 [1, 2, 1]).take 2).sum = 0 ∨
      ((driverSignals 0 0 [1, 2, 1]).take 2).sum = 1) :=
  driver_signal_invariants [1, 2, 1] 1 (by norm_num)

/-! Claim C10: number of lines the main loop writes. -/

theorem loopIter_eq_driver : ∀ (l : List ℕ) (prev : ℚ) (unit : ℤ) (f : ℕ → ℚ) (stop : ℕ),
    loopIter l prev unit f stop =
      driverSignals prev unit ((takeUntil (stop - 1) l).map f) := by
  intro l
  induction l with
  | nil => intro prev unit f stop; rfl
  | cons a rest ih =>
    intro prev unit f stop
    by_cases ha : a = stop - 1
    · simp [loopIter, takeUntil, ha, driverSignals]
    · simp [loopIter, takeUntil, ha, driverSignals, ih]

theorem takeUntil_succ_map (k : ℕ) : ∀ (l : List ℕ),
    takeUntil (k + 1) (l.map Nat.succ) = (takeUntil k l).map Nat.succ := by
  intro l
  induction l with
  | nil => rfl
  | cons a rest ih =>
    by_cases h : a = k
    · simp [takeUntil, h]
    · simp [takeUntil, h, ih]

theorem takeUntil_range : ∀ (n k : ℕ), takeUntil k (List.range n) = List.range (min k n) := by
  intro n
  induction n with
  | zero => intro k; simp [takeUntil]
  | succ m ih =>
    intro k
    rw [List.range_succ_eq_map]
    cases k with
    | zero => simp [takeUntil]
    | succ j =>
      rw [show takeUntil (j + 1) (0 :: (List.range m).map Nat.succ)
          = 0 :: takeUntil (j + 1) ((List.range m).map Nat.succ) from by
        simp [takeUntil]]
      rw [takeUntil_succ_map, ih j, Nat.succ_min_succ, List.range_succ_eq_map]

/-! Shape lemmas for the layer operations (claims C6 and C1). -/

theorem denseM_width (d : ℕ) (w : Mat) (b : Vec) (m : Mat) :
    ∀ r ∈ denseM d w b m, r.length = d := by
  intro r hr
  obtain ⟨row, _, rfl⟩ := List.mem_map.mp hr
  simp

theorem denseM_shape (d l : ℕ) (w : Mat) (b : Vec) (m : Mat) (hm : m.length = l) :
    isMat l d (denseM d w b m) :=
  ⟨by simp [denseM, hm], denseM_width d w b m⟩

theorem reluM_shape (l f : ℕ) (m : Mat) (h : isMat l f m) : isMat l f (reluM m) := by
  refine ⟨by simp [reluM, h.1], ?_⟩
  intro r hr
  obtain ⟨row, hrow, rfl⟩ := List.mem_map.mp hr
  simp [h.2 row hrow]

theorem addMat_shape (l f : ℕ) (a b : Mat) (ha : isMat l f a) (hb : isMat l f b) :
    isMat l f (addMat a b) := by
  refine ⟨by simp [addMat, List.length_zipWith, ha.1, hb.1], ?_⟩
  intro r hr
  obtain ⟨ra, hra, rb, hrb, rfl⟩ := mem_zipWith_decomp hr
  simp [List.length_zipWith, ha.2 ra hra, hb.2 rb hrb]

theorem layerNorm_shape (l f : ℕ) (sq : ℚ → ℚ) (g b : Vec) (m : Mat)
    (hg : g.length = f) (hb : b.length = f) (hm : isMat l f m) :
    isMat l f (layerNorm sq g b m) := by
  refine ⟨by simp [layerNorm, hm.1], ?_⟩
  intro r hr
  obtain ⟨row, hrow, rfl⟩ := List.mem_map.mp hr
  simp [lnRow, List.length_zipWith, List.length_zip, hg, hb, hm.2 row hrow]

theorem singleAttention_length (e : ℚ → ℚ) (sdk : ℚ) (dk dv : ℕ) (p : SAParams)
    (inputs : Mat × Mat × Mat) :
    (singleAttention e sdk dk dv p inputs).length = inputs.1.length := by
  simp [singleAttention, mulMat, attnWeights, scores, denseM]

theorem foldl_concatMat_length : ∀ (ms : List Mat) (m : Mat) (l : ℕ), m.length = l →
    (∀ x ∈ ms, x.length = l) → (ms.foldl concatMat m).length = l := by
  intro ms
  induction ms with
  | nil => intro m l hm _; simpa using hm
  | cons a rest ih =>
    intro m l hm hall
    simp only [List.foldl_cons]
    apply ih
    · simp [concatMat, List.length_zipWith, hm, hall a (by simp)]
    · intro x hx
      exact hall x (by simp [hx])

theorem concatFeat_length (ms : List Mat) (l : ℕ) (hne : 0 < ms.length)
    (hall : ∀ x ∈ ms, x.length = l) : (concatFeat ms).length = l := by
  cases ms with
  | nil => simp at hne
  | cons m rest =>
    show (rest.foldl concatMat m).length = l
    exact foldl_concatMat_length rest m l (hall m (by simp))
      (fun x hx => hall x (by simp [hx]))

theorem multiAttention_shape (e : ℚ → ℚ) (sdk : ℚ) (dk dv fout l : ℕ) (p : MAParams)
    (inputs : Mat × Mat × Mat) (hh : 0 < p.heads.length) (hx : inputs.1.length = l) :
    isMat l fout (multiAttention e sdk dk dv fout p inputs) := by
  have key : multiAttention e sdk dk dv fout p inputs
      = denseM fout p.wo p.bo
          (concatFeat (p.heads.map (fun h => singleAttention e sdk dk dv h inputs))) := rfl
  rw [key]
  apply denseM_shape
  apply concatFeat_length
  · simpa using hh
  · intro x hx2
    obtain ⟨h, _, rfl⟩ := List.mem_map.mp hx2
    rw [singleAttention_length, hx]

theorem transformerEncoder_shape (e sq : ℚ → ℚ) (sdk : ℚ) (dk dv ffd f l : ℕ)
    (p : TEParams) (x : Mat) (hp : encWF f p) (hx : isMat l f x) :
    isMat l f (transformerEncoder e sq sdk dk dv ffd f p (x, x, x)) := by
  obtain ⟨hh, hg1, hb1, hg2, hb2⟩ := hp
  have key : transformerEncoder e sq sdk dk dv ffd f p (x, x, x)
      = layerNorm sq p.g2 p.b2 (addMat x (denseM f p.w2 p.c2 (reluM (denseM ffd p.w1 p.c1
          (layerNorm sq p.g1 p.b1
            (addMat x (multiAttention e sdk dk dv f p.attn (x, x, x)))))))) := rfl
  rw [key]
  have ha : isMat l f (multiAttention e sdk dk dv f p.attn (x, x, x)) :=
    multiAttention_shape e sdk dk dv f l p.attn (x, x, x) hh hx.1
  have hr1 : isMat l f (layerNorm sq p.g1 p.b1
      (addMat x (multiAttention e sdk dk dv f p.attn (x, x, x)))) :=
    layerNorm_shape l f sq p.g1 p.b1 _ hg1 hb1 (addMat_shape l f _ _ hx ha)
  have hf1 : isMat l ffd (denseM ffd p.w1 p.c1 (layerNorm sq p.g1 p.b1
      (addMat x (multiAttention e sdk dk dv f p.attn (x, x, x))))) :=
    denseM_shape ffd l _ _ _ hr1.1
  have hf2 : isMat l f (denseM f p.w2 p.c2 (reluM (denseM ffd p.w1 p.c1
      (layerNorm sq p.g1 p.b1 (addMat x (multiAttention e sdk dk dv f p.attn (x, x, x))))))) :=
    denseM_shape f l _ _ _ (reluM_shape l ffd _ hf1).1
  exact layerNorm_shape l f sq p.g2 p.b2 _ hg2 hb2 (addMat_shape l f _ _ hx hf2)

theorem time2vec_shape (sinQ : ℚ → ℚ) (p : T2VParams) (l : ℕ) (m : Mat)
    (hp : t2vWF l p) (hm : m.length = l) : isMat l 2 (time2vec sinQ p m) := by
  obtain ⟨h1, h2, h3, h4⟩ := hp
  refine ⟨?_, ?_⟩
  · simp [time2vec, List.length_zipWith, List.length_zip, h1, h2, h3, h4, hm]
  · intro r hr
    obtain ⟨a, _, b, _, rfl⟩ := mem_zipWith_decomp hr
    rfl

theorem modelConcat_shape (sinQ : ℚ → ℚ) (P : ModelParams) (m : Mat)
    (hp : t2vWF 128 P.t2v) (hm : isMat 128 4 m) : isMat 128 6 (modelConcat sinQ P m) := by
  have ht2 := time2vec_shape sinQ P.t2v 128 m hp hm.1
  refine ⟨by simp [modelConcat, concatMat, List.length_zipWith, hm.1, ht2.1], ?_⟩
  intro r hr
  obtain ⟨a, ha, b, hb, rfl⟩ := mem_zipWith_decomp hr
  simp [hm.2 a ha, ht2.2 b hb]

theorem modelStage1_shape (e sq sinQ : ℚ → ℚ) (P : ModelParams) (m : Mat)
    (hP : modelWF P) (hm : isMat 128 4 m) : isMat 128 6 (modelStage1 e sq sinQ P m) := by
  obtain ⟨ht2v, ⟨he1, _⟩, _, _⟩ := hP
  exact transformerEncoder_shape e sq sqrtDk 256 256 256 6 128 P.enc1 _ he1
    (modelConcat_shape sinQ P m ht2v hm)

theorem modelStage2_shape (e sq sinQ : ℚ → ℚ) (P : ModelParams) (m : Mat)
    (hP : modelWF P) (hm : isMat 128 4 m) : isMat 128 6 (modelStage2 e sq sinQ P m) :=
  transformerEncoder_shape e sq sqrtDk 256 256 256 6 128 P.enc2 _ hP.2.2.1.1
    (modelStage1_shape e sq sinQ P m hP hm)

theorem modelStage3_shape (e sq sinQ : ℚ → ℚ) (P : ModelParams) (m : Mat)
    (hP : modelWF P) (hm : isMat 128 4 m) : isMat 128 6 (modelStage3 e sq sinQ P m) :=
  transformerEncoder_shape e sq sqrtDk 256 256 256 6 128 P.enc3 _ hP.2.2.2.1
    (modelStage2_shape e sq sinQ P m hP hm)

theorem isMat_replicate (l f : ℕ) (v : Vec) (hv : v.length = f) :
    isMat l f (List.replicate l v) :=
  ⟨by simp, fun r hr => by rw [List.eq_of_mem_replicate hr]; exact hv⟩

theorem modelWF_zero : modelWF zeroModelParams := by
  refine ⟨⟨?_, ?_, ?_, ?_⟩, ⟨⟨?_, ?_, ?_, ?_, ?_⟩, ?_⟩, ⟨⟨?_, ?_, ?_, ?_, ?_⟩, ?_⟩,
    ⟨⟨?_, ?_, ?_, ?_, ?_⟩, ?_⟩⟩ <;> simp [zeroModelParams, zeroTE]

theorem isTensor_zeroInput : isTensor 1 128 4 zeroInput := by
  refine ⟨by simp [zeroInput], ?_⟩
  intro m hm
  rw [show m = List.replicate 128 (List.replicate 4 (0 : ℚ)) from by
    simpa [zeroInput] using hm]
  exact isMat_replicate 128 4 _ (by simp)

theorem isTensor_map (bsz l f l2 f2 : ℕ) (g : Mat → Mat) (t : Tensor)
    (ht : isTensor bsz l f t) (hg : ∀ m, isMat l f m → isMat l2 f2 (g m)) :
    isTensor bsz l2 f2 (t.map g) := by
  obtain ⟨hlen, hall⟩ := ht
  refine ⟨by simp [hlen], ?_⟩
  intro m hm
  obtain ⟨m0, hm0, rfl⟩ := List.mem_map.mp hm
  exact hg m0 (hall m0 hm0)

/-- Claim C6: the Transformer Encoder Block preserves the input tensor
shape for every batch size, sequence length and feature width f the
block was built for (well-shaped parameters: at least one head,
LayerNormalization vectors of length f), and in the assembled model the
feature width is 6 right after concatenating the time embedding and
stays 6 through all three stacked blocks. -/
theorem encoder_preserves_shape_and_model_width_six (e sq sinQ : ℚ → ℚ) (sdk : ℚ)
    (dk dv ffd f bsz l n : ℕ) (p : TEParams) (t : Tensor) (P : ModelParams) (u : Tensor)
    (hp : encWF f p) (ht : isTensor bsz l f t) (hP : modelWF P) (hu : isTensor n 128 4 u) :
    isTensor bsz l f (encoderBlockB e sq sdk dk dv ffd f p t) ∧
      isTensor n 128 6 (modelConcatB sinQ P u) ∧
      isTensor n 128 6 (modelStage1B e sq sinQ P u) ∧
      isTensor n 128 6 (modelStage2B e sq sinQ P u) ∧
      isTensor n 128 6 (modelStage3B e sq sinQ P u) := by
  refine ⟨?_, ?_, ?_, ?_, ?_⟩
  · exact isTensor_map bsz l f l f _ t ht
      (fun m hm => transformerEncoder_shape e sq sdk dk dv ffd f l p m hp hm)
  · exact isTensor_map n 128 4 128 6 _ u hu
      (fun m hm => modelConcat_shape sinQ P m hP.1 hm)
  · exact isTensor_map n 128 4 128 6 _ u hu
      (fun m hm => modelStage1_shape e sq sinQ P m hP hm)
  · exact isTensor_map n 128 4 128 6 _ u hu
      (fun m hm => modelStage2_shape e sq sinQ P m hP hm)
  · exact isTensor_map n 128 4 128 6 _ u hu
      (fun m hm => modelStage3_shape e sq sinQ P m hP hm)

/-- Witness for claim C6: a concrete one-element batch through a tiny
width-1 block, and the zero-parameter assembled model on a concrete
(1, 128, 4) batch. -/
theorem encoder_preserves_shape_witness :
    isTensor 1 1 1 (encoderBlockB expAtZero sqrtC1 16 1 1 1 1 teTiny [[[0]]]) ∧
      isTensor 1 128 6 (modelConcatB sinAtZero zeroModelParams zeroInput) ∧
      isTensor 1 128 6 (modelStage1B expAtZero sqrtC1 sinAtZero zeroModelParams zeroInput) ∧
      isTensor 1 128 6 (modelStage2B expAtZero sqrtC1 sinAtZero zeroModelParams zeroInput) ∧
      isTensor 1 128 6 (modelStage3B expAtZero sqrtC1 sinAtZero zeroModelParams zeroInput) :=
  encoder_preserves_shape_and_model_width_six expAtZero sqrtC1 sinAtZero 16 1 1 1 1 1 1 1
    teTiny [[[0]]] zeroModelParams zeroInput (by decide) (by decide) modelWF_zero
    isTensor_zeroInput

/-- Claim C1 (amended): with data_format set to channels_first, the
pooling layer of the assembled model averages across the FEATURE axis:
for every well-shaped parameter set and (batch, 128, 4) input batch, the
pooled result per batch element is the 128-wide vector whose entry at
timestep t is the mean of the 6 features of the encoder-stack output at
timestep t — not a 6-wide average over timesteps. -/
theorem pooling_averages_feature_axis (e sq sinQ : ℚ → ℚ) (P : ModelParams)
    (t : Tensor) (bsz : ℕ) (hP : modelWF P) (ht : isTensor bsz 128 4 t) :
    modelPooled e sq sinQ P t =
      t.map (fun m => (modelStage3 e sq sinQ P m).map (fun r => r.sum / 6)) ∧
      ∀ v ∈ modelPooled e sq sinQ P t, v.length = 128 := by
  have hstage : ∀ m ∈ t, isMat 128 6 (modelStage3 e sq sinQ P m) :=
    fun m hm => modelStage3_shape e sq sinQ P m hP (ht.2 m hm)
  constructor
  · unfold modelPooled
    apply List.map_congr_left
    intro m hm
    unfold gapRow
    apply List.map_congr_left
    intro r hr
    rw [(hstage m hm).2 r hr]
    norm_num
  · intro v hv
    obtain ⟨m, hm, rfl⟩ := List.mem_map.mp hv
    simp [gapRow, (hstage m hm).1]

/-- Witness for claim C1 at the zero-parameter model on a concrete
(1, 128, 4) batch. -/
theorem pooling_averages_feature_axis_witness :
    modelPooled expAtZero sqrtC1 sinAtZero zeroModelParams zeroInput =
      zeroInput.map (fun m => (modelStage3 expAtZero sqrtC1 sinAtZero zeroModelParams m).map
        (fun r => r.sum / 6)) :=
  (pooling_averages_feature_axis expAtZero sqrtC1 sinAtZero zeroModelParams zeroInput 1
    modelWF_zero isTensor_zeroInput).1

/-- Counterexample to claim C1 as stated: for the zero-parameter
assembled model on a concrete (1, 128, 4) batch, the pooled result is
not the claimed 6-wide per-feature average over timesteps — the pooled
vector has one entry per timestep (128), not one per feature (6). -/
theorem pooling_feature_axis_counterexample :
    modelPooled expAtZero sqrtC1 sinAtZero zeroModelParams zeroInput ≠
      modelPooledClaimC1 expAtZero sqrtC1 sinAtZero zeroModelParams zeroInput := by
  intro hEq
  have hm : isMat 128 4 (List.replicate 128 (List.replicate 4 (0 : ℚ))) :=
    isMat_replicate 128 4 _ (by simp)
  have hstage : isMat 128 6 (modelStage3 expAtZero sqrtC1 sinAtZero zeroModelParams
      (List.replicate 128 (List.replicate 4 (0 : ℚ)))) :=
    modelStage3_shape expAtZero sqrtC1 sinAtZero zeroModelParams _ modelWF_zero hm
  have h0 : gapRow (modelStage3 expAtZero sqrtC1 sinAtZero zeroModelParams
        (List.replicate 128 (List.replicate 4 (0 : ℚ))))
      = gapTimeAxisClaim (modelStage3 expAtZero sqrtC1 sinAtZero zeroModelParams
        (List.replicate 128 (List.replicate 4 (0 : ℚ)))) := by
    simp only [modelPooled, modelPooledClaimC1, zeroInput, List.map_cons,
      List.map_nil] at hEq
    injection hEq
  have h1 := congrArg List.length h0
  rw [show (gapRow (modelStage3 expAtZero sqrtC1 sinAtZero zeroModelParams
      (List.replicate 128 (List.replicate 4 (0 : ℚ))))).length = 128 from by
    simp only [gapRow, List.length_map]; exact hstage.1] at h1
  rw [show (gapTimeAxisClaim (modelStage3 expAtZero sqrtC1 sinAtZero zeroModelParams
      (List.replicate 128 (List.replicate 4 (0 : ℚ))))).length = 6 from by
    simp [gapTimeAxisClaim]] at h1
  exact absurd h1 (by decide)

/-- Claim C10: for a testing csv with r data rows the main loop writes
exactly r - 1 signal lines (natural subtraction: 0 lines for an empty
file): one signal per testing row in order, none for the final row, and
the emitted lines are exactly the driver signals of the first r - 1
predictions. -/
theorem main_loop_writes_r_minus_one_lines (r : ℕ) (predAt : ℕ → ℚ) :
    (mainSignals r predAt).length = r - 1 ∧
      mainSignals r predAt = driverSignals 0 0 ((List.range (r - 1)).map predAt) := by
  have h2 : mainSignals r predAt = driverSignals 0 0 ((List.range (r - 1)).map predAt) := by
    unfold mainSignals
    rw [loopIter_eq_driver, takeUntil_range, min_eq_left (Nat.sub_le r 1)]
  refine ⟨?_, h2⟩
  rw [h2, driverSignals_length, List.length_map, List.length_range]
